import Mathlib

/-!
# Verification of the YieldOptimizer contract (src/src/lib.rs)

Shallow embedding of the NEAR contract `YieldOptimizer`.  Machine integers
(`u64`, `u128`) are modelled as `Nat` together with explicit overflow guards:
an arithmetic operation whose result would not fit the source type aborts the
whole invocation (the host discards all pending writes, so an aborted call
leaves the persisted state unchanged).  Fallible entry points therefore
return `Except ContractError (YieldOptimizer × MethodOutput)`; `applyOp`
gives the host-level semantics in which a failed call keeps the old state.

The `UnorderedMap`/`LookupMap` collections are modelled as association lists
with first-occurrence lookup and replace-or-append insertion.
-/

/-- Upper bound (exclusive) of the `u128` range, i.e. `2 ^ 128`. -/
def U128 : Nat := 340282366920938463463374607431768211456

/-- Upper bound (exclusive) of the `u64` range, i.e. `2 ^ 64`. -/
def U64 : Nat := 18446744073709551616

/-- Account identifiers supplied by the host (`AccountId`). -/
abbrev AccountId := String

/-- `Strategy` record from the source: a yield farming strategy. -/
structure Strategy where
  name : String
  protocol : String
  /-- APY in basis points (1/100th of a percent), `u64`. -/
  apy : Nat
  /-- Total value locked in this strategy, `Balance = u128`. -/
  tvl : Nat
  min_deposit : Nat
  is_active : Bool
  last_update : Nat
deriving DecidableEq

/-- `UserPosition` record from the source: one deposit of one account. -/
structure UserPosition where
  amount : Nat
  strategy_id : Nat
  rewards_claimed : Nat
  deposit_timestamp : Nat
deriving DecidableEq

/-- Contract state (`YieldOptimizer` struct). -/
structure YieldOptimizer where
  owner_id : AccountId
  strategies : List (Nat × Strategy)
  user_positions : List (AccountId × List UserPosition)
  total_tvl : Nat
  strategy_count : Nat
  governance_token : AccountId
  min_deposit_amount : Nat
deriving DecidableEq

/-- First-occurrence lookup in an association list (`UnorderedMap::get`,
`LookupMap::get`). -/
def mapGet {α β : Type} [DecidableEq α] : List (α × β) → α → Option β
  | [], _ => none
  | (k, v) :: rest, key => if k = key then some v else mapGet rest key

/-- Replace-or-append insertion in an association list
(`UnorderedMap::insert`, `LookupMap::insert`). -/
def mapInsert {α β : Type} [DecidableEq α] : List (α × β) → α → β → List (α × β)
  | [], key, val => [(key, val)]
  | (k, v) :: rest, key, val =>
      if k = key then (key, val) :: rest else (k, v) :: mapInsert rest key val

/-- Error kinds: each corresponds to a panic message (or a checked-arithmetic
abort) in the source; any of them aborts the invocation with no state change. -/
inductive ContractError where
  /-- `"Unauthorized"` -/
  | unauthorized
  /-- `"Strategy not found"` -/
  | strategyNotFound
  /-- `"Strategy is not active"` -/
  | strategyInactive
  /-- `"Deposit too small"` (below the global minimum) -/
  | depositTooSmall
  /-- `"Below strategy minimum"` -/
  | belowStrategyMinimum
  /-- `"No positions found"` -/
  | noPositions
  /-- `"Invalid position index"` -/
  | invalidIndex
  /-- arithmetic overflow / underflow abort -/
  | overflow
deriving DecidableEq

/-- Host-visible result channel of a method call.  The source methods return
either nothing (`unitResult`) or a transfer promise (`claim_rewards`); the
`ident` constructor models the id-returning result that the specification
describes for the registry add operation, so that the two can be compared. -/
inductive MethodOutput where
  | unitResult
  | ident (n : Nat)
  | promiseTransfer (recipient : AccountId) (amount : Nat)
deriving DecidableEq

/-- `calculate_rewards` from the source.  Both multiplications are performed
in `u128`; a product `≥ 2 ^ 128` overflows and aborts (`none`). -/
def calculate_rewards (amount apy time_elapsed : Nat) : Option Nat :=
  if amount * apy < U128 then
    let annual_reward := amount * apy / 10000
    if annual_reward * time_elapsed < U128 then
      some (annual_reward * time_elapsed / 31536000)
    else none
  else none

/-- `YieldOptimizer::new`: the initial state. -/
def YieldOptimizer.new (owner_id governance_token : AccountId) : YieldOptimizer :=
  { owner_id := owner_id
    strategies := []
    user_positions := []
    total_tvl := 0
    strategy_count := 0
    governance_token := governance_token
    min_deposit_amount := 1000000000000000000000 }

/-- `YieldOptimizer::add_strategy`.  Host environment: `predecessor` is
`env::predecessor_account_id()`, `block_timestamp` is `env::block_timestamp()`. -/
def YieldOptimizer.add_strategy (s : YieldOptimizer) (predecessor : AccountId)
    (block_timestamp : Nat) (name protocol : String) (apy min_deposit : Nat) :
    Except ContractError (YieldOptimizer × MethodOutput) :=
  if predecessor = s.owner_id then
    if s.strategy_count + 1 < U64 then
      let strategy : Strategy :=
        { name := name
          protocol := protocol
          apy := apy
          tvl := 0
          min_deposit := min_deposit
          is_active := true
          last_update := block_timestamp }
      .ok ({ s with
              strategies := mapInsert s.strategies s.strategy_count strategy
              strategy_count := s.strategy_count + 1 },
           .unitResult)
    else .error .overflow
  else .error .unauthorized

/-- `YieldOptimizer::deposit`.  `attached_deposit` is `env::attached_deposit()`. -/
def YieldOptimizer.deposit (s : YieldOptimizer) (predecessor : AccountId)
    (attached_deposit block_timestamp : Nat) (strategy_id : Nat) :
    Except ContractError (YieldOptimizer × MethodOutput) :=
  if attached_deposit < s.min_deposit_amount then .error .depositTooSmall
  else
    match mapGet s.strategies strategy_id with
    | none => .error .strategyNotFound
    | some strategy =>
      if strategy.is_active then
        if attached_deposit < strategy.min_deposit then .error .belowStrategyMinimum
        else
          let position : UserPosition :=
            { amount := attached_deposit
              strategy_id := strategy_id
              rewards_claimed := 0
              deposit_timestamp := block_timestamp }
          let user_positions :=
            ((mapGet s.user_positions predecessor).getD []) ++ [position]
          if strategy.tvl + attached_deposit < U128 then
            if s.total_tvl + attached_deposit < U128 then
              .ok ({ s with
                      user_positions :=
                        mapInsert s.user_positions predecessor user_positions
                      strategies := mapInsert s.strategies strategy_id
                        { strategy with tvl := strategy.tvl + attached_deposit }
                      total_tvl := s.total_tvl + attached_deposit },
                   .unitResult)
            else .error .overflow
          else .error .overflow
      else .error .strategyInactive

/-- `YieldOptimizer::claim_rewards`. -/
def YieldOptimizer.claim_rewards (s : YieldOptimizer) (predecessor : AccountId)
    (block_timestamp : Nat) (position_index : Nat) :
    Except ContractError (YieldOptimizer × MethodOutput) :=
  match mapGet s.user_positions predecessor with
  | none => .error .noPositions
  | some user_positions =>
    match user_positions[position_index]? with
    | none => .error .invalidIndex
    | some position =>
      match mapGet s.strategies position.strategy_id with
      | none => .error .strategyNotFound
      | some strategy =>
        if position.deposit_timestamp ≤ block_timestamp then
          let time_elapsed := block_timestamp - position.deposit_timestamp
          match calculate_rewards position.amount strategy.apy time_elapsed with
          | none => .error .overflow
          | some rewards =>
            if position.rewards_claimed + rewards < U128 then
              .ok ({ s with
                      user_positions := mapInsert s.user_positions predecessor
                        (user_positions.set position_index
                          { position with
                              rewards_claimed := position.rewards_claimed + rewards }) },
                   .promiseTransfer predecessor rewards)
            else .error .overflow
        else .error .overflow

/-- `YieldOptimizer::update_strategy_apy`. -/
def YieldOptimizer.update_strategy_apy (s : YieldOptimizer) (predecessor : AccountId)
    (block_timestamp : Nat) (strategy_id new_apy : Nat) :
    Except ContractError (YieldOptimizer × MethodOutput) :=
  if predecessor = s.owner_id then
    match mapGet s.strategies strategy_id with
    | none => .error .strategyNotFound
    | some strategy =>
      .ok ({ s with
              strategies := mapInsert s.strategies strategy_id
                { strategy with apy := new_apy, last_update := block_timestamp } },
           .unitResult)
  else .error .unauthorized

/-- View method `get_strategy`. -/
def YieldOptimizer.get_strategy (s : YieldOptimizer) (strategy_id : Nat) :
    Option Strategy :=
  mapGet s.strategies strategy_id

/-- View method `get_user_positions`. -/
def YieldOptimizer.get_user_positions (s : YieldOptimizer) (user_id : AccountId) :
    List UserPosition :=
  (mapGet s.user_positions user_id).getD []

/-- View method `get_total_tvl`. -/
def YieldOptimizer.get_total_tvl (s : YieldOptimizer) : Nat :=
  s.total_tvl

/-- One host-dispatched invocation of a mutating entry point, carrying the
environment values the host supplies for that call. -/
inductive Op where
  | addStrategy (predecessor : AccountId) (block_timestamp : Nat)
      (name protocol : String) (apy min_deposit : Nat)
  | deposit (predecessor : AccountId) (attached_deposit block_timestamp : Nat)
      (strategy_id : Nat)
  | claimRewards (predecessor : AccountId) (block_timestamp : Nat)
      (position_index : Nat)
  | updateStrategyApy (predecessor : AccountId) (block_timestamp : Nat)
      (strategy_id new_apy : Nat)

/-- The raw `Except` result of one invocation. -/
def runOp (s : YieldOptimizer) : Op → Except ContractError (YieldOptimizer × MethodOutput)
  | .addStrategy p t n pr a m => s.add_strategy p t n pr a m
  | .deposit p v t i => s.deposit p v t i
  | .claimRewards p t i => s.claim_rewards p t i
  | .updateStrategyApy p t i a => s.update_strategy_apy p t i a

/-- Host-level semantics of one invocation: a failed call aborts and the host
keeps the previous state. -/
def applyOp (s : YieldOptimizer) (op : Op) : YieldOptimizer :=
  match runOp s op with
  | .ok (s2, _) => s2
  | .error _ => s

/-- Run a whole sequence of invocations. -/
def execTrace (s : YieldOptimizer) : List Op → YieldOptimizer
  | [] => s
  | op :: rest => execTrace (applyOp s op) rest

/-- Attached value of an operation when it is a successful deposit, else 0. -/
def depositValue (s : YieldOptimizer) : Op → Nat
  | .deposit p v t i =>
      match s.deposit p v t i with
      | .ok _ => v
      | .error _ => 0
  | _ => 0

/-- Sum of the attached values of all successful deposits along a trace. -/
def successfulDepositSum (s : YieldOptimizer) : List Op → Nat
  | [] => 0
  | op :: rest => depositValue s op + successfulDepositSum (applyOp s op) rest

/-- Number of successful `add_strategy` calls in an operation (0 or 1). -/
def addSuccessValue (s : YieldOptimizer) : Op → Nat
  | .addStrategy p t n pr a m =>
      match s.add_strategy p t n pr a m with
      | .ok _ => 1
      | .error _ => 0
  | _ => 0

/-- Number of strategies created along a trace. -/
def addSuccessCount (s : YieldOptimizer) : List Op → Nat
  | [] => 0
  | op :: rest => addSuccessValue s op + addSuccessCount (applyOp s op) rest

/-- Sum of the `tvl` fields of a strategy registry. -/
def stratTvlSum : List (Nat × Strategy) → Nat
  | [] => 0
  | kv :: rest => kv.2.tvl + stratTvlSum rest

/-- The host-visible output of a call result, when the call succeeded. -/
def outputOf (r : Except ContractError (YieldOptimizer × MethodOutput)) :
    Option MethodOutput :=
  match r with
  | .ok (_, o) => some o
  | .error _ => none

example : calculate_rewards 1000000 500 31536000 = some 50000 := by decide

/-! ## Association-list lemmas -/

theorem mapGet_mapInsert_self {α β : Type} [DecidableEq α]
    (l : List (α × β)) (k : α) (v : β) :
    mapGet (mapInsert l k v) k = some v := by
  induction l with
  | nil => simp [mapInsert, mapGet]
  | cons kv rest ih =>
    by_cases h : kv.1 = k
    · simp [mapInsert, mapGet, h]
    · simpa [mapInsert, mapGet, h] using ih

theorem mapGet_mapInsert_ne {α β : Type} [DecidableEq α]
    (l : List (α × β)) (k k2 : α) (v : β) (h : k2 ≠ k) :
    mapGet (mapInsert l k v) k2 = mapGet l k2 := by
  induction l with
  | nil => simp [mapInsert, mapGet, Ne.symm h]
  | cons kv rest ih =>
    obtain ⟨k1, v1⟩ := kv
    by_cases hk : k1 = k
    · subst hk
      simp [mapInsert, mapGet, Ne.symm h]
    · simp [mapInsert, mapGet, hk, ih]

theorem mapGet_eq_none_of_not_mem {α β : Type} [DecidableEq α]
    (l : List (α × β)) (k : α) (h : k ∉ l.map Prod.fst) :
    mapGet l k = none := by
  induction l with
  | nil => simp [mapGet]
  | cons kv rest ih =>
    obtain ⟨k1, v1⟩ := kv
    simp only [List.map_cons, List.mem_cons, not_or] at h
    simp [mapGet, Ne.symm h.1, ih h.2]

theorem mapInsert_of_not_mem {α β : Type} [DecidableEq α]
    (l : List (α × β)) (k : α) (v : β) (h : k ∉ l.map Prod.fst) :
    mapInsert l k v = l ++ [(k, v)] := by
  induction l with
  | nil => simp [mapInsert]
  | cons kv rest ih =>
    obtain ⟨k1, v1⟩ := kv
    simp only [List.map_cons, List.mem_cons, not_or] at h
    simp [mapInsert, Ne.symm h.1, ih h.2]

theorem keys_mapInsert_of_mem {α β : Type} [DecidableEq α]
    (l : List (α × β)) (k : α) (v w : β) (h : mapGet l k = some w) :
    (mapInsert l k v).map Prod.fst = l.map Prod.fst := by
  induction l with
  | nil => simp [mapGet] at h
  | cons kv rest ih =>
    obtain ⟨k1, v1⟩ := kv
    by_cases hk : k1 = k
    · subst hk
      simp [mapInsert]
    · simp only [mapGet, hk, if_false] at h
      simp [mapInsert, hk, ih h]

theorem stratTvlSum_append (l1 l2 : List (Nat × Strategy)) :
    stratTvlSum (l1 ++ l2) = stratTvlSum l1 + stratTvlSum l2 := by
  induction l1 with
  | nil => simp [stratTvlSum]
  | cons kv rest ih => simp [stratTvlSum, ih]; omega

theorem stratTvlSum_mapInsert_fresh (l : List (Nat × Strategy)) (k : Nat)
    (v : Strategy) (h : k ∉ l.map Prod.fst) :
    stratTvlSum (mapInsert l k v) = stratTvlSum l + v.tvl := by
  rw [mapInsert_of_not_mem l k v h, stratTvlSum_append]
  simp [stratTvlSum]

theorem keys_mapInsert_fresh {α β : Type} [DecidableEq α]
    (l : List (α × β)) (k : α) (v : β) (h : k ∉ l.map Prod.fst) :
    (mapInsert l k v).map Prod.fst = l.map Prod.fst ++ [k] := by
  rw [mapInsert_of_not_mem l k v h]
  simp

theorem stratTvlSum_mapInsert (l : List (Nat × Strategy)) (k : Nat)
    (v w : Strategy) (h : mapGet l k = some w) :
    stratTvlSum (mapInsert l k v) + w.tvl = stratTvlSum l + v.tvl := by
  induction l with
  | nil => simp [mapGet] at h
  | cons kv rest ih =>
    obtain ⟨k1, v1⟩ := kv
    by_cases hk : k1 = k
    · subst hk
      simp only [mapGet, if_pos rfl] at h
      injection h with h2
      subst h2
      simp [mapInsert, stratTvlSum]
      omega
    · simp only [mapGet, hk, if_false] at h
      have := ih h
      simp [mapInsert, hk, stratTvlSum]
      omega


/-! ## Branch equations for the entry points -/

theorem applyOp_addStrategy_error {s : YieldOptimizer} {p : AccountId}
    {t : Nat} {n pr : String} {a m : Nat} {e : ContractError}
    (h : s.add_strategy p t n pr a m = .error e) :
    applyOp s (Op.addStrategy p t n pr a m) = s := by
  simp [applyOp, runOp, h]

theorem applyOp_addStrategy_ok {s s2 : YieldOptimizer} {p : AccountId}
    {t : Nat} {n pr : String} {a m : Nat} {o : MethodOutput}
    (h : s.add_strategy p t n pr a m = .ok (s2, o)) :
    applyOp s (Op.addStrategy p t n pr a m) = s2 := by
  simp [applyOp, runOp, h]

theorem applyOp_deposit_error {s : YieldOptimizer} {p : AccountId}
    {v t i : Nat} {e : ContractError} (h : s.deposit p v t i = .error e) :
    applyOp s (Op.deposit p v t i) = s := by
  simp [applyOp, runOp, h]

theorem applyOp_deposit_ok {s s2 : YieldOptimizer} {p : AccountId}
    {v t i : Nat} {o : MethodOutput} (h : s.deposit p v t i = .ok (s2, o)) :
    applyOp s (Op.deposit p v t i) = s2 := by
  simp [applyOp, runOp, h]

theorem applyOp_claim_error {s : YieldOptimizer} {p : AccountId}
    {t i : Nat} {e : ContractError} (h : s.claim_rewards p t i = .error e) :
    applyOp s (Op.claimRewards p t i) = s := by
  simp [applyOp, runOp, h]

theorem applyOp_claim_ok {s s2 : YieldOptimizer} {p : AccountId}
    {t i : Nat} {o : MethodOutput} (h : s.claim_rewards p t i = .ok (s2, o)) :
    applyOp s (Op.claimRewards p t i) = s2 := by
  simp [applyOp, runOp, h]

theorem applyOp_update_error {s : YieldOptimizer} {p : AccountId}
    {t i a : Nat} {e : ContractError}
    (h : s.update_strategy_apy p t i a = .error e) :
    applyOp s (Op.updateStrategyApy p t i a) = s := by
  simp [applyOp, runOp, h]

theorem applyOp_update_ok {s s2 : YieldOptimizer} {p : AccountId}
    {t i a : Nat} {o : MethodOutput}
    (h : s.update_strategy_apy p t i a = .ok (s2, o)) :
    applyOp s (Op.updateStrategyApy p t i a) = s2 := by
  simp [applyOp, runOp, h]

theorem add_strategy_eq_unauthorized (s : YieldOptimizer) (p : AccountId)
    (t : Nat) (n pr : String) (a m : Nat) (hp : p ≠ s.owner_id) :
    s.add_strategy p t n pr a m = .error .unauthorized := by
  simp [YieldOptimizer.add_strategy, hp]

theorem add_strategy_eq_ok (s : YieldOptimizer) (p : AccountId)
    (t : Nat) (n pr : String) (a m : Nat) (hp : p = s.owner_id)
    (hc : s.strategy_count + 1 < U64) :
    s.add_strategy p t n pr a m =
      .ok ({ s with
              strategies := mapInsert s.strategies s.strategy_count
                { name := n, protocol := pr, apy := a, tvl := 0,
                  min_deposit := m, is_active := true, last_update := t }
              strategy_count := s.strategy_count + 1 },
           .unitResult) := by
  simp [YieldOptimizer.add_strategy, hp, hc]

theorem deposit_eq_tooSmall (s : YieldOptimizer) (p : AccountId) (v t i : Nat)
    (h1 : v < s.min_deposit_amount) :
    s.deposit p v t i = .error .depositTooSmall := by
  simp [YieldOptimizer.deposit, h1]

theorem deposit_eq_notFound (s : YieldOptimizer) (p : AccountId) (v t i : Nat)
    (h1 : ¬ v < s.min_deposit_amount) (hget : mapGet s.strategies i = none) :
    s.deposit p v t i = .error .strategyNotFound := by
  simp [YieldOptimizer.deposit, h1, hget]

theorem deposit_eq_inactive (s : YieldOptimizer) (p : AccountId) (v t i : Nat)
    (strat : Strategy) (h1 : ¬ v < s.min_deposit_amount)
    (hget : mapGet s.strategies i = some strat)
    (h2 : strat.is_active = false) :
    s.deposit p v t i = .error .strategyInactive := by
  simp [YieldOptimizer.deposit, h1, hget, h2]

theorem deposit_eq_belowStrategyMin (s : YieldOptimizer) (p : AccountId)
    (v t i : Nat) (strat : Strategy) (h1 : ¬ v < s.min_deposit_amount)
    (hget : mapGet s.strategies i = some strat)
    (h2 : strat.is_active = true) (h3 : v < strat.min_deposit) :
    s.deposit p v t i = .error .belowStrategyMinimum := by
  simp [YieldOptimizer.deposit, h1, hget, h2, h3]

theorem deposit_eq_ok (s : YieldOptimizer) (p : AccountId) (v t i : Nat)
    (strat : Strategy) (h1 : ¬ v < s.min_deposit_amount)
    (hget : mapGet s.strategies i = some strat)
    (h2 : strat.is_active = true) (h3 : ¬ v < strat.min_deposit)
    (h4 : strat.tvl + v < U128) (h5 : s.total_tvl + v < U128) :
    s.deposit p v t i =
      .ok ({ s with
              user_positions := mapInsert s.user_positions p
                ((mapGet s.user_positions p).getD [] ++
                  [{ amount := v, strategy_id := i, rewards_claimed := 0,
                     deposit_timestamp := t }])
              strategies := mapInsert s.strategies i
                { strat with tvl := strat.tvl + v }
              total_tvl := s.total_tvl + v },
           .unitResult) := by
  simp [YieldOptimizer.deposit, h1, hget, h2, h3, h4, h5]

theorem claim_eq_noPositions (s : YieldOptimizer) (p : AccountId) (t i : Nat)
    (h : mapGet s.user_positions p = none) :
    s.claim_rewards p t i = .error .noPositions := by
  simp [YieldOptimizer.claim_rewards, h]

theorem claim_eq_invalidIndex (s : YieldOptimizer) (p : AccountId) (t i : Nat)
    (l : List UserPosition) (hl : mapGet s.user_positions p = some l)
    (hi : l[i]? = none) :
    s.claim_rewards p t i = .error .invalidIndex := by
  simp [YieldOptimizer.claim_rewards, hl, hi]

theorem claim_eq_ok (s : YieldOptimizer) (p : AccountId) (t i : Nat)
    (l : List UserPosition) (pos : UserPosition) (strat : Strategy) (r : Nat)
    (hl : mapGet s.user_positions p = some l)
    (hi : l[i]? = some pos)
    (hs : mapGet s.strategies pos.strategy_id = some strat)
    (ht : pos.deposit_timestamp ≤ t)
    (hr : calculate_rewards pos.amount strat.apy (t - pos.deposit_timestamp) = some r)
    (hov : pos.rewards_claimed + r < U128) :
    s.claim_rewards p t i =
      .ok ({ s with
              user_positions := mapInsert s.user_positions p
                (l.set i { pos with rewards_claimed := pos.rewards_claimed + r }) },
           .promiseTransfer p r) := by
  simp [YieldOptimizer.claim_rewards, hl, hi, hs, ht, hr, hov]

theorem update_eq_unauthorized (s : YieldOptimizer) (p : AccountId)
    (t i a : Nat) (hp : p ≠ s.owner_id) :
    s.update_strategy_apy p t i a = .error .unauthorized := by
  simp [YieldOptimizer.update_strategy_apy, hp]

theorem update_eq_notFound (s : YieldOptimizer) (p : AccountId) (t i a : Nat)
    (hp : p = s.owner_id) (hget : mapGet s.strategies i = none) :
    s.update_strategy_apy p t i a = .error .strategyNotFound := by
  simp [YieldOptimizer.update_strategy_apy, hp, hget]

theorem update_eq_ok (s : YieldOptimizer) (p : AccountId) (t i a : Nat)
    (strat : Strategy) (hp : p = s.owner_id)
    (hget : mapGet s.strategies i = some strat) :
    s.update_strategy_apy p t i a =
      .ok ({ s with
              strategies := mapInsert s.strategies i
                { strat with apy := a, last_update := t } },
           .unitResult) := by
  simp [YieldOptimizer.update_strategy_apy, hp, hget]

/-! ## Reachability invariants -/

/-- Bookkeeping invariant of the contract state: the TVL accumulator equals
the sum of the per-strategy TVLs, and the registry keys are exactly
`0, 1, ..., strategy_count - 1` in creation order. -/
def GoodState (s : YieldOptimizer) : Prop :=
  s.total_tvl = stratTvlSum s.strategies ∧
  s.strategies.map Prod.fst = List.range s.strategy_count

theorem goodState_new (o g : AccountId) : GoodState (YieldOptimizer.new o g) := by
  constructor <;> simp [YieldOptimizer.new, stratTvlSum]

theorem applyOp_claim_shape (s : YieldOptimizer) (p : AccountId) (t i : Nat) :
    ∃ up, applyOp s (Op.claimRewards p t i) = { s with user_positions := up } := by
    cases hl : mapGet s.user_positions p with
    | none =>
      exact ⟨s.user_positions, applyOp_claim_error (claim_eq_noPositions s p t i hl)⟩
    | some l =>
      cases hi : l[i]? with
      | none =>
        exact ⟨s.user_positions,
          applyOp_claim_error (claim_eq_invalidIndex s p t i l hl hi)⟩
      | some pos =>
        cases hs : mapGet s.strategies pos.strategy_id with
        | none =>
          have he := (by simp [YieldOptimizer.claim_rewards, hl, hi, hs] :
            s.claim_rewards p t i = .error .strategyNotFound)
          exact ⟨s.user_positions, applyOp_claim_error he⟩
        | some strat =>
          by_cases ht : pos.deposit_timestamp ≤ t
          · cases hr : calculate_rewards pos.amount strat.apy
                (t - pos.deposit_timestamp) with
            | none =>
              have he := (by simp [YieldOptimizer.claim_rewards, hl, hi, hs,
                ht, hr] : s.claim_rewards p t i = .error .overflow)
              exact ⟨s.user_positions, applyOp_claim_error he⟩
            | some r =>
              by_cases hov : pos.rewards_claimed + r < U128
              · exact ⟨mapInsert s.user_positions p
                  (l.set i { pos with
                    rewards_claimed := pos.rewards_claimed + r }),
                  applyOp_claim_ok
                    (claim_eq_ok s p t i l pos strat r hl hi hs ht hr hov)⟩
              · have he := (by simp [YieldOptimizer.claim_rewards, hl, hi, hs,
                  ht, hr, hov] : s.claim_rewards p t i = .error .overflow)
                exact ⟨s.user_positions, applyOp_claim_error he⟩
          · have he := (by simp [YieldOptimizer.claim_rewards, hl, hi, hs, ht] :
              s.claim_rewards p t i = .error .overflow)
            exact ⟨s.user_positions, applyOp_claim_error he⟩

theorem goodState_applyOp (s : YieldOptimizer) (op : Op) (hg : GoodState s) :
    GoodState (applyOp s op) ∧
      (applyOp s op).total_tvl = s.total_tvl + depositValue s op := by
  obtain ⟨htvl, hkeys⟩ := hg
  cases op with
  | addStrategy p t n pr a m =>
    by_cases hp : p = s.owner_id
    · by_cases hc : s.strategy_count + 1 < U64
      · have hfresh : s.strategy_count ∉ s.strategies.map Prod.fst := by
          rw [hkeys]
          simp [List.mem_range]
        rw [applyOp_addStrategy_ok (add_strategy_eq_ok s p t n pr a m hp hc)]
        refine ⟨⟨?_, ?_⟩, by simp [depositValue]⟩
        · show s.total_tvl = stratTvlSum (mapInsert s.strategies s.strategy_count _)
          rw [stratTvlSum_mapInsert_fresh _ _ _ hfresh, htvl]
          simp
        · show (mapInsert s.strategies s.strategy_count _).map Prod.fst =
            List.range (s.strategy_count + 1)
          rw [keys_mapInsert_fresh _ _ _ hfresh, hkeys, List.range_succ]
      · have he := (by simp [YieldOptimizer.add_strategy, hp, hc] :
          s.add_strategy p t n pr a m = .error .overflow)
        rw [applyOp_addStrategy_error he]
        exact ⟨⟨htvl, hkeys⟩, by simp [depositValue]⟩
    · rw [applyOp_addStrategy_error (add_strategy_eq_unauthorized s p t n pr a m hp)]
      exact ⟨⟨htvl, hkeys⟩, by simp [depositValue]⟩
  | deposit p v t i =>
    by_cases h1 : v < s.min_deposit_amount
    · have he := deposit_eq_tooSmall s p v t i h1
      rw [applyOp_deposit_error he]
      exact ⟨⟨htvl, hkeys⟩, by simp [depositValue, he]⟩
    · cases hget : mapGet s.strategies i with
      | none =>
        have he := deposit_eq_notFound s p v t i h1 hget
        rw [applyOp_deposit_error he]
        exact ⟨⟨htvl, hkeys⟩, by simp [depositValue, he]⟩
      | some strat =>
        cases h2 : strat.is_active with
        | false =>
          have he := deposit_eq_inactive s p v t i strat h1 hget h2
          rw [applyOp_deposit_error he]
          exact ⟨⟨htvl, hkeys⟩, by simp [depositValue, he]⟩
        | true =>
          by_cases h3 : v < strat.min_deposit
          · have he := deposit_eq_belowStrategyMin s p v t i strat h1 hget h2 h3
            rw [applyOp_deposit_error he]
            exact ⟨⟨htvl, hkeys⟩, by simp [depositValue, he]⟩
          · by_cases h4 : strat.tvl + v < U128
            · by_cases h5 : s.total_tvl + v < U128
              · have he := deposit_eq_ok s p v t i strat h1 hget h2 h3 h4 h5
                rw [applyOp_deposit_ok he]
                have hsum : stratTvlSum (mapInsert s.strategies i
                    { strat with tvl := strat.tvl + v }) + strat.tvl =
                    stratTvlSum s.strategies + (strat.tvl + v) := by
                  simpa using stratTvlSum_mapInsert s.strategies i
                    { strat with tvl := strat.tvl + v } strat hget
                refine ⟨⟨?_, ?_⟩, by simp [depositValue, he]⟩
                · show s.total_tvl + v = stratTvlSum (mapInsert s.strategies i _)
                  omega
                · show (mapInsert s.strategies i _).map Prod.fst =
                    List.range s.strategy_count
                  rw [keys_mapInsert_of_mem s.strategies i _ strat hget, hkeys]
              · have he := (by
                  simp [YieldOptimizer.deposit, h1, hget, h2, h3, h4, h5] :
                  s.deposit p v t i = .error .overflow)
                rw [applyOp_deposit_error he]
                exact ⟨⟨htvl, hkeys⟩, by simp [depositValue, he]⟩
            · have he := (by
                simp [YieldOptimizer.deposit, h1, hget, h2, h3, h4] :
                s.deposit p v t i = .error .overflow)
              rw [applyOp_deposit_error he]
              exact ⟨⟨htvl, hkeys⟩, by simp [depositValue, he]⟩
  | claimRewards p t i =>
    have hshape := applyOp_claim_shape s p t i
    obtain ⟨up, hup⟩ := hshape
    rw [hup]
    exact ⟨⟨htvl, hkeys⟩, by simp [depositValue]⟩
  | updateStrategyApy p t i a =>
    by_cases hp : p = s.owner_id
    · cases hget : mapGet s.strategies i with
      | none =>
        rw [applyOp_update_error (update_eq_notFound s p t i a hp hget)]
        exact ⟨⟨htvl, hkeys⟩, by simp [depositValue]⟩
      | some strat =>
        rw [applyOp_update_ok (update_eq_ok s p t i a strat hp hget)]
        have hsum : stratTvlSum (mapInsert s.strategies i
            { strat with apy := a, last_update := t }) + strat.tvl =
            stratTvlSum s.strategies + strat.tvl := by
          simpa using stratTvlSum_mapInsert s.strategies i
            { strat with apy := a, last_update := t } strat hget
        refine ⟨⟨?_, ?_⟩, by simp [depositValue]⟩
        · show s.total_tvl = stratTvlSum (mapInsert s.strategies i _)
          omega
        · show (mapInsert s.strategies i _).map Prod.fst =
            List.range s.strategy_count
          rw [keys_mapInsert_of_mem s.strategies i _ strat hget, hkeys]
    · rw [applyOp_update_error (update_eq_unauthorized s p t i a hp)]
      exact ⟨⟨htvl, hkeys⟩, by simp [depositValue]⟩

/-- Any deposit call leaves `owner_id`, `strategy_count`, `governance_token`
and `min_deposit_amount` untouched: the state after `deposit` differs at most
in the ledger, the registry contents, and the TVL accumulator. -/
theorem applyOp_deposit_shape (s : YieldOptimizer) (p : AccountId) (v t i : Nat) :
    ∃ up st tv, applyOp s (Op.deposit p v t i) =
      { s with user_positions := up, strategies := st, total_tvl := tv } := by
  by_cases h1 : v < s.min_deposit_amount
  · exact ⟨s.user_positions, s.strategies, s.total_tvl,
      by rw [applyOp_deposit_error (deposit_eq_tooSmall s p v t i h1)]⟩
  · cases hget : mapGet s.strategies i with
    | none =>
      exact ⟨s.user_positions, s.strategies, s.total_tvl,
        by rw [applyOp_deposit_error (deposit_eq_notFound s p v t i h1 hget)]⟩
    | some strat =>
      cases h2 : strat.is_active with
      | false =>
        exact ⟨s.user_positions, s.strategies, s.total_tvl,
          by rw [applyOp_deposit_error (deposit_eq_inactive s p v t i strat h1 hget h2)]⟩
      | true =>
        by_cases h3 : v < strat.min_deposit
        · exact ⟨s.user_positions, s.strategies, s.total_tvl,
            by rw [applyOp_deposit_error
              (deposit_eq_belowStrategyMin s p v t i strat h1 hget h2 h3)]⟩
        · by_cases h4 : strat.tvl + v < U128
          · by_cases h5 : s.total_tvl + v < U128
            · refine ⟨mapInsert s.user_positions p
                ((mapGet s.user_positions p).getD [] ++
                  [{ amount := v, strategy_id := i, rewards_claimed := 0,
                     deposit_timestamp := t }]),
                mapInsert s.strategies i { strat with tvl := strat.tvl + v },
                s.total_tvl + v, ?_⟩
              rw [applyOp_deposit_ok (deposit_eq_ok s p v t i strat h1 hget h2 h3 h4 h5)]
            · exact ⟨s.user_positions, s.strategies, s.total_tvl,
                by rw [applyOp_deposit_error (by
                  simp [YieldOptimizer.deposit, h1, hget, h2, h3, h4, h5] :
                  s.deposit p v t i = .error .overflow)]⟩
          · exact ⟨s.user_positions, s.strategies, s.total_tvl,
              by rw [applyOp_deposit_error (by
                simp [YieldOptimizer.deposit, h1, hget, h2, h3, h4] :
                s.deposit p v t i = .error .overflow)]⟩

/-- Any `update_strategy_apy` call changes at most the registry contents. -/
theorem applyOp_update_shape (s : YieldOptimizer) (p : AccountId) (t i a : Nat) :
    ∃ st, applyOp s (Op.updateStrategyApy p t i a) = { s with strategies := st } := by
  by_cases hp : p = s.owner_id
  · cases hget : mapGet s.strategies i with
    | none =>
      exact ⟨s.strategies,
        by rw [applyOp_update_error (update_eq_notFound s p t i a hp hget)]⟩
    | some strat =>
      exact ⟨mapInsert s.strategies i { strat with apy := a, last_update := t },
        by rw [applyOp_update_ok (update_eq_ok s p t i a strat hp hget)]⟩
  · exact ⟨s.strategies,
      by rw [applyOp_update_error (update_eq_unauthorized s p t i a hp)]⟩

/-- One step changes `strategy_count` by exactly the number of strategies the
step successfully created, and never changes the global deposit minimum. -/
theorem applyOp_count_min (s : YieldOptimizer) (op : Op) :
    (applyOp s op).strategy_count = s.strategy_count + addSuccessValue s op ∧
    (applyOp s op).min_deposit_amount = s.min_deposit_amount := by
  cases op with
  | addStrategy p t n pr a m =>
    by_cases hp : p = s.owner_id
    · by_cases hc : s.strategy_count + 1 < U64
      · have he := add_strategy_eq_ok s p t n pr a m hp hc
        rw [applyOp_addStrategy_ok he]
        exact ⟨by simp [addSuccessValue, he], rfl⟩
      · have he := (by simp [YieldOptimizer.add_strategy, hp, hc] :
          s.add_strategy p t n pr a m = .error .overflow)
        rw [applyOp_addStrategy_error he]
        exact ⟨by simp [addSuccessValue, he], rfl⟩
    · have he := add_strategy_eq_unauthorized s p t n pr a m hp
      rw [applyOp_addStrategy_error he]
      exact ⟨by simp [addSuccessValue, he], rfl⟩
  | deposit p v t i =>
    obtain ⟨up, st, tv, h⟩ := applyOp_deposit_shape s p v t i
    rw [h]
    exact ⟨by simp [addSuccessValue], rfl⟩
  | claimRewards p t i =>
    obtain ⟨up, h⟩ := applyOp_claim_shape s p t i
    rw [h]
    exact ⟨by simp [addSuccessValue], rfl⟩
  | updateStrategyApy p t i a =>
    obtain ⟨st, h⟩ := applyOp_update_shape s p t i a
    rw [h]
    exact ⟨by simp [addSuccessValue], rfl⟩

/-! ## Trace-level facts -/

theorem goodState_execTrace (tr : List Op) :
    ∀ s : YieldOptimizer, GoodState s →
      GoodState (execTrace s tr) ∧
        (execTrace s tr).total_tvl = s.total_tvl + successfulDepositSum s tr := by
  induction tr with
  | nil =>
    intro s hs
    exact ⟨hs, by simp [execTrace, successfulDepositSum]⟩
  | cons op rest ih =>
    intro s hs
    obtain ⟨h1, h2⟩ := goodState_applyOp s op hs
    obtain ⟨h3, h4⟩ := ih (applyOp s op) h1
    refine ⟨h3, ?_⟩
    show (execTrace (applyOp s op) rest).total_tvl =
      s.total_tvl + (depositValue s op + successfulDepositSum (applyOp s op) rest)
    omega

theorem execTrace_count_min (tr : List Op) :
    ∀ s : YieldOptimizer,
      (execTrace s tr).strategy_count = s.strategy_count + addSuccessCount s tr ∧
      (execTrace s tr).min_deposit_amount = s.min_deposit_amount := by
  induction tr with
  | nil =>
    intro s
    exact ⟨by simp [execTrace, addSuccessCount], rfl⟩
  | cons op rest ih =>
    intro s
    obtain ⟨h1, h2⟩ := applyOp_count_min s op
    obtain ⟨h3, h4⟩ := ih (applyOp s op)
    constructor
    · show (execTrace (applyOp s op) rest).strategy_count =
        s.strategy_count + (addSuccessValue s op + addSuccessCount (applyOp s op) rest)
      omega
    · show (execTrace (applyOp s op) rest).min_deposit_amount = s.min_deposit_amount
      rw [h4, h2]

/-! ## Reward-calculator facts -/

/-- Inversion: a defined reward value pins down the overflow guards and the
exact multiply-before-divide formula. -/
theorem calculate_rewards_some (a r e v : Nat)
    (h : calculate_rewards a r e = some v) :
    a * r < U128 ∧ a * r / 10000 * e < U128 ∧
      v = a * r / 10000 * e / 31536000 := by
  by_cases h1 : a * r < U128
  · by_cases h2 : a * r / 10000 * e < U128
    · refine ⟨h1, h2, ?_⟩
      simp only [calculate_rewards, h1, h2, if_true, Option.some.injEq] at h
      exact h.symm
    · simp [calculate_rewards, h1, h2] at h
  · simp [calculate_rewards, h1] at h

/-- **C2** (amended): `calculate_rewards` computes
`((amount * apy_bps / 10000) * elapsed) / 31536000` with exact integer
arithmetic, multiplying before dividing, whenever both 128-bit intermediate
products fit in `u128` (otherwise the call aborts with an overflow instead of
returning the exact value); in particular
`calculate_rewards 1000000 500 31536000 = 50000` exactly, and
`calculate_rewards amount 0 elapsed = 0` for every amount and elapsed. -/
theorem calculate_rewards_exact :
    (∀ a r e, a * r < U128 → a * r / 10000 * e < U128 →
      calculate_rewards a r e = some (a * r / 10000 * e / 31536000)) ∧
    calculate_rewards 1000000 500 31536000 = some 50000 ∧
    (∀ a e, calculate_rewards a 0 e = some 0) := by
  refine ⟨?_, by decide, ?_⟩
  · intro a r e h1 h2
    simp [calculate_rewards, h1, h2]
  · intro a e
    have h0 : (0 : Nat) < U128 := by decide
    simp [calculate_rewards, h0]

/-- **C2** counterexample: the claim quantifies over all arguments, but at
`amount = 2 ^ 127`, `apy_bps = 20000` the 128-bit product `amount * apy`
overflows, the call aborts, and the exact value
`(amount * apy / 10000) * elapsed / 31536000 = 2 ^ 128` is not returned. -/
theorem calculate_rewards_overflow_cex :
    calculate_rewards 170141183460469231731687303715884105728 20000 31536000 ≠
      some (170141183460469231731687303715884105728 * 20000 / 10000 *
        31536000 / 31536000) := by
  decide

/-- Witness for the amended **C2** theorem at a concrete input. -/
theorem calculate_rewards_exact_witness :
    calculate_rewards 1000000000000000000000 500 63072000 =
      some 100000000000000000000 := by
  rw [calculate_rewards_exact.1 1000000000000000000000 500 63072000
    (by decide) (by decide)]

/-- **C8**: for fixed `amount` and `apy_bps`, `calculate_rewards` is
monotonically non-decreasing in `elapsed`; for fixed `amount` and `elapsed`
it is monotonically non-decreasing in `apy_bps` (over the inputs on which
the checked 128-bit arithmetic yields a value). -/
theorem calculate_rewards_monotone :
    (∀ a r e1 e2 v1 v2, e1 ≤ e2 →
      calculate_rewards a r e1 = some v1 →
      calculate_rewards a r e2 = some v2 → v1 ≤ v2) ∧
    (∀ a e r1 r2 v1 v2, r1 ≤ r2 →
      calculate_rewards a r1 e = some v1 →
      calculate_rewards a r2 e = some v2 → v1 ≤ v2) := by
  constructor
  · intro a r e1 e2 v1 v2 he h1 h2
    obtain ⟨_, _, hv1⟩ := calculate_rewards_some a r e1 v1 h1
    obtain ⟨_, _, hv2⟩ := calculate_rewards_some a r e2 v2 h2
    rw [hv1, hv2]
    exact Nat.div_le_div_right (Nat.mul_le_mul_left _ he)
  · intro a e r1 r2 v1 v2 hr h1 h2
    obtain ⟨_, _, hv1⟩ := calculate_rewards_some a r1 e v1 h1
    obtain ⟨_, _, hv2⟩ := calculate_rewards_some a r2 e v2 h2
    rw [hv1, hv2]
    have hm : a * r1 / 10000 ≤ a * r2 / 10000 :=
      Nat.div_le_div_right (Nat.mul_le_mul_left _ hr)
    exact Nat.div_le_div_right (Nat.mul_le_mul_right _ hm)

/-- Witness for **C8** at concrete inputs: one year versus two years of
accrual on the same deposit. -/
theorem calculate_rewards_monotone_witness :
    (50000000000000000000 : Nat) ≤ 100000000000000000000 :=
  calculate_rewards_monotone.1 1000000000000000000000 500 31536000 63072000
    50000000000000000000 100000000000000000000 (by decide) (by decide) (by decide)

/-! ## Concrete states used by the witnesses -/

/-- The strategy stored by the first `add_strategy` call of the example
traces below. -/
def stratA0 : Strategy :=
  { name := "pool", protocol := "refswap", apy := 500, tvl := 0,
    min_deposit := 0, is_active := true, last_update := 1 }

/-- Reachable state with two strategies added by the owner `"alice"`. -/
def stateA : YieldOptimizer :=
  execTrace (YieldOptimizer.new "alice" "gov")
    [Op.addStrategy "alice" 1 "pool" "refswap" 500 0,
     Op.addStrategy "alice" 2 "vault" "burrow" 1200 0]

/-- Reachable state with one strategy and one deposit of 1000 NEAR by
`"bob"` made at timestamp 10. -/
def stateB : YieldOptimizer :=
  execTrace (YieldOptimizer.new "alice" "gov")
    [Op.addStrategy "alice" 1 "pool" "refswap" 500 0,
     Op.deposit "bob" 1000000000000000000000 10 0]

/-- The single position held by `"bob"` in `stateB`. -/
def posB : UserPosition :=
  { amount := 1000000000000000000000, strategy_id := 0, rewards_claimed := 0,
    deposit_timestamp := 10 }

/-! ## C10: the global minimum is checked first and never changes -/

/-- **C10**: a deposit whose attached value is strictly below the global
`min_deposit_amount` fails with `"Deposit too small"` in every state and for
every strategy id, existing or not — the global-minimum check precedes the
strategy lookup; and along every trace from initialization the global minimum
stays fixed at `1_000_000_000_000_000_000_000`. -/
theorem global_min_checked_first :
    (∀ (s : YieldOptimizer) (p : AccountId) (v t i : Nat),
      v < s.min_deposit_amount →
        s.deposit p v t i = .error .depositTooSmall) ∧
    (∀ (o g : AccountId) (tr : List Op),
      (execTrace (YieldOptimizer.new o g) tr).min_deposit_amount =
        1000000000000000000000) := by
  constructor
  · intro s p v t i h
    exact deposit_eq_tooSmall s p v t i h
  · intro o g tr
    rw [(execTrace_count_min tr (YieldOptimizer.new o g)).2]
    rfl

/-- Witness for **C10**: value 5 against the nonexistent strategy 99 of a
fresh state is rejected as too small. -/
theorem global_min_checked_first_witness :
    (YieldOptimizer.new "alice" "gov").deposit "bob" 5 0 99 =
      .error .depositTooSmall :=
  global_min_checked_first.1 (YieldOptimizer.new "alice" "gov") "bob" 5 0 99
    (by decide)

/-! ## C3: undersized deposits are rejected without a trace -/

/-- **C3**: in every state, a deposit against an existing strategy whose
attached value is strictly below `max(min_deposit_amount, strategy.min_deposit)`
fails — with `"Deposit too small"`, `"Strategy is not active"` or
`"Below strategy minimum"` — and the host-level state after the call is
exactly the state before it (registry, ledger and `total_tvl` included). -/
theorem deposit_below_min_rejected (s : YieldOptimizer) (p : AccountId)
    (v t i : Nat) (strat : Strategy)
    (hget : mapGet s.strategies i = some strat)
    (hv : v < max s.min_deposit_amount strat.min_deposit) :
    (s.deposit p v t i = .error .depositTooSmall ∨
     s.deposit p v t i = .error .strategyInactive ∨
     s.deposit p v t i = .error .belowStrategyMinimum) ∧
    applyOp s (Op.deposit p v t i) = s := by
  by_cases h1 : v < s.min_deposit_amount
  · have he := deposit_eq_tooSmall s p v t i h1
    exact ⟨Or.inl he, applyOp_deposit_error he⟩
  · have h2 : v < strat.min_deposit := by
      rcases lt_max_iff.mp hv with h | h
      · exact absurd h h1
      · exact h
    cases ha : strat.is_active with
    | false =>
      have he := deposit_eq_inactive s p v t i strat h1 hget ha
      exact ⟨Or.inr (Or.inl he), applyOp_deposit_error he⟩
    | true =>
      have he := deposit_eq_belowStrategyMin s p v t i strat h1 hget ha h2
      exact ⟨Or.inr (Or.inr he), applyOp_deposit_error he⟩

/-- Witness for **C3**: an undersized deposit against strategy 0 of `stateA`
is rejected and the state is untouched. -/
theorem deposit_below_min_rejected_witness :
    (stateA.deposit "bob" 5 0 0 = .error .depositTooSmall ∨
     stateA.deposit "bob" 5 0 0 = .error .strategyInactive ∨
     stateA.deposit "bob" 5 0 0 = .error .belowStrategyMinimum) ∧
    applyOp stateA (Op.deposit "bob" 5 0 0) = stateA :=
  deposit_below_min_rejected stateA "bob" 5 0 0 stratA0 (by decide) (by decide)

/-! ## C5: out-of-range claims are rejected -/

/-- **C5**: for every account and every `position_index` at or beyond the
account's position count, `claim_rewards` fails — with `"No positions found"`
when the account has no stored position sequence and with
`"Invalid position index"` when it has one — and the host-level state after
the call is exactly the state before it, so `rewards_claimed` of every
position of every account is unchanged. -/
theorem claim_bad_index_rejected (s : YieldOptimizer) (p : AccountId)
    (t i : Nat) (h : (s.get_user_positions p).length ≤ i) :
    (mapGet s.user_positions p = none →
      s.claim_rewards p t i = .error .noPositions) ∧
    (∀ l, mapGet s.user_positions p = some l →
      s.claim_rewards p t i = .error .invalidIndex) ∧
    applyOp s (Op.claimRewards p t i) = s := by
  cases hl : mapGet s.user_positions p with
  | none =>
    have he := claim_eq_noPositions s p t i hl
    refine ⟨fun _ => he, ?_, applyOp_claim_error he⟩
    intro l hl2
    simp [hl] at hl2
  | some l0 =>
    have hlen : l0.length ≤ i := by
      simpa [YieldOptimizer.get_user_positions, hl] using h
    have he := claim_eq_invalidIndex s p t i l0 hl (List.getElem?_eq_none hlen)
    refine ⟨?_, fun l hl2 => he, applyOp_claim_error he⟩
    intro hl2
    simp [hl] at hl2

/-- Witness for **C5**: in `stateB` the account `"bob"` holds one position,
so index 5 is rejected and the state is untouched. -/
theorem claim_bad_index_rejected_witness :
    stateB.claim_rewards "bob" 99 5 = .error .invalidIndex ∧
    applyOp stateB (Op.claimRewards "bob" 99 5) = stateB := by
  have h := claim_bad_index_rejected stateB "bob" 99 5 (by decide)
  exact ⟨h.2.1 [posB] (by decide), h.2.2⟩

/-! ## C6: owner-gated registry mutation -/

/-- **C6**: every caller other than `owner_id` gets `"Unauthorized"` from
both `add_strategy` and `update_strategy_apy`, and the host-level state
(hence the registry and `strategy_count`) is exactly as before the call;
when the caller is `owner_id` the authorization check passes: neither
operation can return `"Unauthorized"`. -/
theorem owner_gate (s : YieldOptimizer) (p : AccountId) (t : Nat) :
    (p ≠ s.owner_id →
      (∀ n pr a m, s.add_strategy p t n pr a m = .error .unauthorized ∧
        applyOp s (Op.addStrategy p t n pr a m) = s) ∧
      (∀ i a, s.update_strategy_apy p t i a = .error .unauthorized ∧
        applyOp s (Op.updateStrategyApy p t i a) = s)) ∧
    (p = s.owner_id →
      (∀ n pr a m, s.add_strategy p t n pr a m ≠ .error .unauthorized) ∧
      (∀ i a, s.update_strategy_apy p t i a ≠ .error .unauthorized)) := by
  constructor
  · intro hp
    constructor
    · intro n pr a m
      have he := add_strategy_eq_unauthorized s p t n pr a m hp
      exact ⟨he, applyOp_addStrategy_error he⟩
    · intro i a
      have he := update_eq_unauthorized s p t i a hp
      exact ⟨he, applyOp_update_error he⟩
  · intro hp
    constructor
    · intro n pr a m
      by_cases hc : s.strategy_count + 1 < U64
      · simp [add_strategy_eq_ok s p t n pr a m hp hc]
      · have he := (by simp [YieldOptimizer.add_strategy, hp, hc] :
          s.add_strategy p t n pr a m = .error .overflow)
        simp [he]
    · intro i a
      cases hget : mapGet s.strategies i with
      | none => simp [update_eq_notFound s p t i a hp hget]
      | some strat => simp [update_eq_ok s p t i a strat hp hget]

/-- Witness for **C6**: the stranger `"mallory"` cannot add a strategy to a
fresh registry owned by `"alice"`, and the state is untouched; `"alice"`
passes the authorization check. -/
theorem owner_gate_witness :
    ((YieldOptimizer.new "alice" "gov").add_strategy "mallory" 5 "x" "y" 1 2 =
      .error .unauthorized ∧
     applyOp (YieldOptimizer.new "alice" "gov")
       (Op.addStrategy "mallory" 5 "x" "y" 1 2) =
       YieldOptimizer.new "alice" "gov") ∧
    (YieldOptimizer.new "alice" "gov").update_strategy_apy "alice" 5 0 7 ≠
      .error .unauthorized := by
  constructor
  · exact ((owner_gate (YieldOptimizer.new "alice" "gov") "mallory" 5).1
      (by decide)).1 "x" "y" 1 2
  · exact ((owner_gate (YieldOptimizer.new "alice" "gov") "alice" 5).2
      rfl).2 0 7

/-! ## C7: effect of a successful deposit -/

/-- **C7**: a successful deposit of value `v` against strategy `i` (all
guards pass) increases strategy `i`'s `tvl` by exactly `v`, leaves every
other strategy untouched, increases `total_tvl` by exactly `v`, appends
exactly one new position to the caller's sequence, and leaves every other
account's sequence unchanged. -/
theorem deposit_success_effect (s : YieldOptimizer) (p : AccountId)
    (v t i : Nat) (strat : Strategy)
    (hget : mapGet s.strategies i = some strat)
    (h2 : strat.is_active = true)
    (h1 : ¬ v < s.min_deposit_amount) (h3 : ¬ v < strat.min_deposit)
    (h4 : strat.tvl + v < U128) (h5 : s.total_tvl + v < U128) :
    s.deposit p v t i =
      .ok (applyOp s (Op.deposit p v t i), .unitResult) ∧
    mapGet (applyOp s (Op.deposit p v t i)).strategies i =
      some { strat with tvl := strat.tvl + v } ∧
    (∀ j, j ≠ i → mapGet (applyOp s (Op.deposit p v t i)).strategies j =
      mapGet s.strategies j) ∧
    (applyOp s (Op.deposit p v t i)).total_tvl = s.total_tvl + v ∧
    (applyOp s (Op.deposit p v t i)).get_user_positions p =
      s.get_user_positions p ++
        [{ amount := v, strategy_id := i, rewards_claimed := 0,
           deposit_timestamp := t }] ∧
    (∀ q, q ≠ p → mapGet (applyOp s (Op.deposit p v t i)).user_positions q =
      mapGet s.user_positions q) := by
  have he := deposit_eq_ok s p v t i strat h1 hget h2 h3 h4 h5
  have ha := applyOp_deposit_ok he
  rw [ha]
  refine ⟨he, ?_, ?_, rfl, ?_, ?_⟩
  · exact mapGet_mapInsert_self s.strategies i _
  · intro j hj
    exact mapGet_mapInsert_ne s.strategies i j _ hj
  · simp [YieldOptimizer.get_user_positions, mapGet_mapInsert_self]
  · intro q hq
    exact mapGet_mapInsert_ne s.user_positions p q _ hq

/-- Witness for **C7**: a 1000 NEAR deposit by `"bob"` against strategy 0 of
`stateA` raises `total_tvl` by exactly the attached value and leaves
strategy 1 untouched. -/
theorem deposit_success_effect_witness :
    (applyOp stateA (Op.deposit "bob" 1000000000000000000000 10 0)).total_tvl =
      stateA.total_tvl + 1000000000000000000000 ∧
    mapGet (applyOp stateA
        (Op.deposit "bob" 1000000000000000000000 10 0)).strategies 1 =
      mapGet stateA.strategies 1 := by
  have h := deposit_success_effect stateA "bob" 1000000000000000000000 10 0
    stratA0 (by decide) (by decide) (by decide) (by decide) (by decide)
    (by decide)
  exact ⟨h.2.2.2.1, h.2.2.1 1 (by decide)⟩

/-! ## C4: effect of a successful reward claim -/

/-- **C4**: a successful `claim_rewards` on position `i` of the caller's
sequence increments that position's `rewards_claimed` by exactly
`calculate_rewards (amount, strategy.apy, now - deposit_timestamp)` and
leaves its `amount`, `strategy_id` and `deposit_timestamp` unchanged — the
accrual baseline `deposit_timestamp` does not reset on claim; the issued
transfer promise carries the same reward value. -/
theorem claim_rewards_success_effect (s : YieldOptimizer) (p : AccountId)
    (t i : Nat) (l : List UserPosition) (pos : UserPosition)
    (strat : Strategy) (r : Nat)
    (hl : mapGet s.user_positions p = some l)
    (hi : l[i]? = some pos)
    (hs : mapGet s.strategies pos.strategy_id = some strat)
    (ht : pos.deposit_timestamp ≤ t)
    (hr : calculate_rewards pos.amount strat.apy (t - pos.deposit_timestamp) =
      some r)
    (hov : pos.rewards_claimed + r < U128) :
    s.claim_rewards p t i =
      .ok (applyOp s (Op.claimRewards p t i), .promiseTransfer p r) ∧
    (applyOp s (Op.claimRewards p t i)).get_user_positions p =
      l.set i { pos with rewards_claimed := pos.rewards_claimed + r } ∧
    ((applyOp s (Op.claimRewards p t i)).get_user_positions p)[i]? =
      some { amount := pos.amount, strategy_id := pos.strategy_id,
             rewards_claimed := pos.rewards_claimed + r,
             deposit_timestamp := pos.deposit_timestamp } ∧
    (∀ q, q ≠ p → mapGet (applyOp s (Op.claimRewards p t i)).user_positions q =
      mapGet s.user_positions q) := by
  have he := claim_eq_ok s p t i l pos strat r hl hi hs ht hr hov
  have ha := applyOp_claim_ok he
  have hup : (applyOp s (Op.claimRewards p t i)).get_user_positions p =
      l.set i { pos with rewards_claimed := pos.rewards_claimed + r } := by
    rw [ha]
    simp [YieldOptimizer.get_user_positions, mapGet_mapInsert_self]
  refine ⟨by rw [ha]; exact he, hup, ?_, ?_⟩
  · rw [hup]
    have hlen : i < l.length := (List.getElem?_eq_some.mp hi).1
    rw [List.getElem?_set_eq_of_lt _ hlen]
  · intro q hq
    rw [ha]
    exact mapGet_mapInsert_ne s.user_positions p q _ hq

/-- Witness for **C4**: `"bob"` claims on his position in `stateB` one year
after depositing; `rewards_claimed` rises by exactly the 5 percent annual
reward and the deposit timestamp stays 10. -/
theorem claim_rewards_success_effect_witness :
    stateB.claim_rewards "bob" 31536010 0 =
      .ok (applyOp stateB (Op.claimRewards "bob" 31536010 0),
        .promiseTransfer "bob" 50000000000000000000) ∧
    ((applyOp stateB (Op.claimRewards "bob" 31536010 0)).get_user_positions
        "bob")[0]? =
      some { amount := 1000000000000000000000, strategy_id := 0,
             rewards_claimed := 50000000000000000000,
             deposit_timestamp := 10 } := by
  have h := claim_rewards_success_effect stateB "bob" 31536010 0 [posB] posB
    { stratA0 with tvl := 1000000000000000000000 } 50000000000000000000
    (by decide) (by decide) (by decide) (by decide) (by decide) (by decide)
  exact ⟨h.1, h.2.2.1⟩

/-! ## C1: the TVL accumulator invariant -/

/-- **C1**: in every state reachable from initialization by any sequence of
operations, `total_tvl` equals the sum of `tvl` over all strategies in the
registry, and also equals the sum of the attached values of all successful
deposits performed so far. -/
theorem total_tvl_invariant (o g : AccountId) (tr : List Op) :
    (execTrace (YieldOptimizer.new o g) tr).total_tvl =
      stratTvlSum (execTrace (YieldOptimizer.new o g) tr).strategies ∧
    (execTrace (YieldOptimizer.new o g) tr).total_tvl =
      successfulDepositSum (YieldOptimizer.new o g) tr := by
  obtain ⟨⟨h1, _⟩, h3⟩ :=
    goodState_execTrace tr (YieldOptimizer.new o g) (goodState_new o g)
  refine ⟨h1, ?_⟩
  have h0 : (YieldOptimizer.new o g).total_tvl = 0 := rfl
  omega

/-! ## C9: sequential strategy identifiers -/

/-- **C9** (amended): each successful `add_strategy` stores, under the key
`strategy_count` (the next sequential id, starting at 0), a `Strategy` with
`tvl = 0`, `is_active = true`, `last_update = now`, and increments
`strategy_count`; the method itself returns no value (`unitResult`), not the
assigned id.  Along every trace from initialization the registry keys are
exactly `0, ..., strategy_count - 1` in creation order (dense, never reused)
and `strategy_count` equals the number of strategies ever created. -/
theorem add_strategy_sequential :
    (∀ (s : YieldOptimizer) (p : AccountId) (t : Nat) (n pr : String)
        (a m : Nat), p = s.owner_id → s.strategy_count + 1 < U64 →
      s.add_strategy p t n pr a m =
        .ok ({ s with
                strategies := mapInsert s.strategies s.strategy_count
                  { name := n, protocol := pr, apy := a, tvl := 0,
                    min_deposit := m, is_active := true, last_update := t }
                strategy_count := s.strategy_count + 1 },
             .unitResult)) ∧
    (∀ (o g : AccountId) (tr : List Op),
      (execTrace (YieldOptimizer.new o g) tr).strategies.map Prod.fst =
        List.range (execTrace (YieldOptimizer.new o g) tr).strategy_count ∧
      (execTrace (YieldOptimizer.new o g) tr).strategy_count =
        addSuccessCount (YieldOptimizer.new o g) tr) := by
  constructor
  · intro s p t n pr a m hp hc
    exact add_strategy_eq_ok s p t n pr a m hp hc
  · intro o g tr
    refine ⟨(goodState_execTrace tr _ (goodState_new o g)).1.2, ?_⟩
    have h := (execTrace_count_min tr (YieldOptimizer.new o g)).1
    have h0 : (YieldOptimizer.new o g).strategy_count = 0 := rfl
    omega

/-- **C9** counterexample: the claim says `add_strategy` returns the
assigned id.  On the very first call (assigned id 0) the method's
host-visible output is the unit result, not the identifier 0. -/
theorem add_strategy_no_id_returned_cex :
    outputOf ((YieldOptimizer.new "alice" "gov").add_strategy "alice" 7
      "pool" "refswap" 500 0) = some MethodOutput.unitResult ∧
    some MethodOutput.unitResult ≠ some (MethodOutput.ident 0) := by
  exact ⟨by decide, by decide⟩

/-- Witness for the amended **C9** theorem: the first `add_strategy` call on
a fresh registry stores strategy 0 with `tvl = 0`, `is_active = true`,
`last_update = 7` and bumps `strategy_count` to 1. -/
theorem add_strategy_sequential_witness :
    (YieldOptimizer.new "alice" "gov").add_strategy "alice" 7 "pool"
        "refswap" 500 0 =
      .ok ({ owner_id := "alice",
             strategies := [(0, { name := "pool", protocol := "refswap",
                                  apy := 500, tvl := 0, min_deposit := 0,
                                  is_active := true, last_update := 7 })],
             user_positions := [],
             total_tvl := 0,
             strategy_count := 1,
             governance_token := "gov",
             min_deposit_amount := 1000000000000000000000 },
           .unitResult) := by
  rw [add_strategy_sequential.1 (YieldOptimizer.new "alice" "gov") "alice" 7
    "pool" "refswap" 500 0 rfl (by decide)]
  rfl
